import Mathlib

/-!
Shallow embedding of the Cobbler template-rendering pipeline
(`cobbler/templar.py`, class `Templar`) and proofs about its behaviour.

Strings are modelled as `List Char`.  The external template engines
(Cheetah compilation/execution together with the macro-file read, and the
Jinja2 environment) are abstracted as an `Oracle` parameter: the pipeline
code around them is translated literally from the Python source, and the
theorems quantify over all oracle behaviours where that matters.
-/

set_option autoImplicit false

namespace Cobbler

/-- Convert a Lean string literal to the character-list representation. -/
def s2l (s : String) : List Char := s.toList

/-- The characters Python's no-argument `str.strip` / `str.lstrip` remove. -/
def isPyWS (c : Char) : Bool :=
  c = ' ' ∨ c = '\t' ∨ c = '\n' ∨ c = '\r' ∨ c = '\x0b' ∨ c = '\x0c'

/-- Python `str.strip()` (no argument): trim whitespace at both ends. -/
def pyStrip (l : List Char) : List Char :=
  ((l.dropWhile isPyWS).reverse.dropWhile isPyWS).reverse

/-- Python `str.lower()` (ASCII fragment). -/
def pyLower (l : List Char) : List Char := l.map Char.toLower

/-- Python `str.strip("@@")`: remove every `'@'` at either end. -/
def stripAts (l : List Char) : List Char :=
  ((l.dropWhile (· = '@')).reverse.dropWhile (· = '@')).reverse

/-- Python `x in s` for substrings, i.e. `s.find(x) != -1`. -/
def containsSub (s t : List Char) : Bool :=
  match s with
  | [] => t.isEmpty
  | _ :: rest => t.isPrefixOf s || containsSub rest t

/-- Python `s.split(sep)` for a one-character separator. -/
def splitCh (sep : Char) : List Char → List (List Char)
  | [] => [[]]
  | c :: rest =>
    match splitCh sep rest with
    | [] => [[]]
    | cur :: parts => if c = sep then [] :: cur :: parts else (c :: cur) :: parts

/-- Join with a one-character separator (Python `sep.join`). -/
def joinCh (sep : Char) : List (List Char) → List Char
  | [] => []
  | [a] => a
  | a :: rest => a ++ sep :: joinCh sep rest

/-- Split `s` at the first occurrence of `c`, if any. -/
def breakCh (c : Char) : List Char → Option (List Char × List Char)
  | [] => none
  | x :: rest =>
    if x = c then some ([], rest)
    else
      match breakCh c rest with
      | some (a, b) => some (x :: a, b)
      | none => none

/-- Python `s.split(c, maxsplit)`. -/
def splitMax (c : Char) : Nat → List Char → List (List Char)
  | 0, s => [s]
  | n + 1, s =>
    match breakCh c s with
    | none => [s]
    | some (a, b) => a :: splitMax c n b

/-- Fueled form of Python `str.replace` (all non-overlapping occurrences,
left to right, the inserted text is not rescanned).  The fuel is the length
of the scanned text, so `replaceList` below always has enough. -/
def replaceListF (t v : List Char) : Nat → List Char → List Char
  | _, [] => []
  | 0, s => s
  | f + 1, c :: rest =>
    if t ≠ [] ∧ t.isPrefixOf (c :: rest) then
      v ++ replaceListF t v f (List.drop t.length (c :: rest))
    else
      c :: replaceListF t v f rest

/-- Python `s.replace(t, v)`; the source only calls it with nonempty `t`. -/
def replaceList (t v s : List Char) : List Char :=
  replaceListF t v s.length s

/-- Values stored in the `search_table` context: strings, numbers, or a
nested table (the `template_universe` snapshot).  Python's `repr` of a
dict is abstracted in `toText`; no claim exercises it. -/
inductive Value where
  | str (s : List Char)
  | int (n : Int)
  | dict (d : List (List Char × Value))

/-- Python `hp in (80, '80')`: `==` against the int `80` and the string
`"80"`; values of other shapes compare unequal to both. -/
def isPort80 : Value → Bool
  | .int n => n = 80
  | .str s => s = s2l "80"
  | .dict _ => false

/-- A `search_table`: insertion-ordered string-keyed mapping. -/
abbrev Ctx := List (List Char × Value)

/-- Python `table[key]` / `table.get(key)` lookup. -/
def ctxGet : Ctx → List Char → Option Value
  | [], _ => none
  | (k, v) :: rest, key => if k = key then some v else ctxGet rest key

/-- Python `table[key] = v` / `table.update({key: v})`: overwrite in place,
else append. -/
def setKey : Ctx → List Char → Value → Ctx
  | [], k, v => [(k, v)]
  | (k', v') :: rest, k, v =>
    if k' = k then (k, v) :: rest else (k', v') :: setKey rest k v

/-- `"%s" % value`: Python `str()`.  The repr of a nested dict is
abstracted as `<dict>`; no claim depends on it. -/
def toText : Value → List Char
  | .str s => s
  | .int n => s2l (toString n)
  | .dict _ => s2l "<dict>"

/-- The slice of the settings collaborator that `Templar` reads. -/
structure Settings where
  cheetah_import_whitelist : List (List Char)
  /-- `settings.default_template_type`; the empty list models a falsy value. -/
  default_template_type : List Char
  server : Value

/-- Failures the pipeline can raise: `CX` application exceptions, a
`KeyError` from an unguarded `search_table[...]` lookup, a `TypeError`
from `str.replace` with a non-string value or `.startswith` on a
non-string, and the `AttributeError` from `self.settings.server` when no
settings object is present. -/
inductive RErr where
  | cx (msg : List Char)
  | keyError (k : List Char)
  | typeError
  | attrError

/-- Abstraction of the external engines.  `cheetahExec` stands for the
macro-file read plus `CobblerTemplate` compilation and instantiation
(`.error` models any exception thrown inside the `try` block);
`jinjaExec` stands for the Jinja2 environment construction and
`template.render` (`none` models any exception); `jinjaAvailable` models
the module-level `jinja2_available` flag. -/
structure Oracle where
  cheetahExec : List Char → Ctx → Except Unit (List Char)
  jinjaExec : List Char → Ctx → Option (List Char)
  jinjaAvailable : Bool

/-- `Templar.check_for_invalid_imports`, inner loop body for one line. -/
def importTarget (line : List Char) : List Char :=
  pyStrip (replaceList (s2l " ") [] (replaceList (s2l "#import") [] line))

/-- One iteration of the `check_for_invalid_imports` loop. -/
def checkLine (st : Option Settings) (line : List Char) : Except RErr Unit :=
  if containsSub line (s2l "#import") then
    match st with
    | some s =>
      if importTarget line ∈ s.cheetah_import_whitelist then .ok ()
      else .error (.cx (s2l "potentially insecure import in template: " ++ importTarget line))
    | none => .ok ()
  else .ok ()

/-- The `check_for_invalid_imports` loop over all lines. -/
def checkGo (st : Option Settings) : List (List Char) → Except RErr Unit
  | [] => .ok ()
  | l :: ls =>
    match checkLine st l with
    | .error e => .error e
    | .ok _ => checkGo st ls

/-- `Templar.check_for_invalid_imports`. -/
def check_for_invalid_imports (st : Option Settings) (data : List Char) : Except RErr Unit :=
  checkGo st (splitCh '\n' data)

/-- One line of the NFS `tree` rewrite inside `render_cheetah`. -/
def nfsLine (tree line : List Char) : Except RErr (List Char) :=
  if containsSub line (s2l "--url") ∧ containsSub line (s2l "url ") then
    match splitMax ':' 2 (tree.drop 6) with
    | [sv, dv] =>
      .ok (s2l "nfs --server " ++ sv ++ s2l " --dir " ++ dv
            ++ ['\n'] ++ s2l "#url --url=" ++ tree)
    | _ => .error (.cx (s2l "Invalid syntax for NFS path given during import: " ++ tree))
  else .ok line

/-- The NFS rewrite loop: `newdata += line + "\n"` per source line. -/
def nfsGo (tree : List Char) : List (List Char) → Except RErr (List Char)
  | [] => .ok []
  | l :: ls =>
    match nfsLine tree l with
    | .error e => .error e
    | .ok l' =>
      match nfsGo tree ls with
      | .error e => .error e
      | .ok rest => .ok (l' ++ '\n' :: rest)

/-- The `tree`-guarded NFS rewrite in `render_cheetah`.  A non-string
`tree` value makes Python's `.startswith` raise. -/
def nfsRewrite (ctx : Ctx) (raw : List Char) : Except RErr (List Char) :=
  match ctxGet ctx (s2l "tree") with
  | some (.str tree) =>
    if (s2l "nfs://").isPrefixOf tree then nfsGo tree (splitCh '\n' raw)
    else .ok raw
  | some _ => .error .typeError
  | none => .ok raw

/-- `Templar.render_cheetah`.  The engine call at the end covers the
macro-file read, compilation and instantiation; an exception there is
turned into the fixed `CX` message, as in the source `try` block. -/
def render_cheetah (o : Oracle) (st : Option Settings) (ctx : Ctx) (raw : List Char) :
    Except RErr (List Char × Ctx) :=
  match check_for_invalid_imports st raw with
  | .error e => .error e
  | .ok _ =>
    let raw1 := replaceList (s2l "TEMPLATE::") (s2l "$") raw
    match nfsRewrite ctx raw1 with
    | .error e => .error e
    | .ok raw2 =>
      let raw3 := s2l "#errorCatcher ListErrors\n" ++ raw2
      let ctx1 := setKey ctx (s2l "template_universe") (.dict ctx)
      match o.cheetahExec raw3 ctx1 with
      | .ok out => .ok (out, ctx1)
      | .error _ =>
        .error (.cx (s2l "Error templating file, check cobbler.log for more details"))

/-- `Templar.render_jinja2`: any engine exception degrades to the fixed
placeholder text. -/
def render_jinja2 (o : Oracle) (ctx : Ctx) (raw : List Char) : List Char :=
  match o.jinjaExec raw ctx with
  | some out => out
  | none => s2l "# EXCEPTION OCCURRED DURING JINJA2 TEMPLATE PROCESSING\n"

/-- Resolution of `template_type` for `"default"` (`render` lines 112-116). -/
def defaultType (st : Option Settings) : List Char :=
  match st with
  | some s => if s.default_template_type ≠ [] then s.default_template_type else s2l "cheetah"
  | none => s2l "cheetah"

/-- Python `list[1]`; total stand-in, only applied where index 1 exists. -/
def idx1 : List (List Char) → List Char
  | _ :: x :: _ => x
  | _ => []

/-- The engine-type / first-line-directive resolution in `Templar.render`
(lines 112-123): the `"default"` fallback happens first, then a first
line starting with `#template=` overrides the type and is dropped from
the source. -/
def resolveType (st : Option Settings) (raw ttype : List Char) : List Char × List Char :=
  let t1 := if ttype = s2l "default" then defaultType st else ttype
  match splitCh '\n' raw with
  | [] => (t1, raw)
  | l0 :: rest =>
    if (s2l "#template=").isPrefixOf l0 then
      (pyLower (pyStrip (idx1 (splitCh '=' l0))), joinCh '\n' rest)
    else (t1, raw)

/-- The `http_server` computation in `render` (lines 137-143).  The
default argument `self.settings.server` is evaluated even when the key is
present, so a missing settings object raises. -/
def httpStep (st : Option Settings) (ctx : Ctx) : Except RErr Ctx :=
  match st with
  | none => .error .attrError
  | some s =>
    let hp := (ctxGet ctx (s2l "http_port")).getD (.str (s2l "80"))
    let server := (ctxGet ctx (s2l "server")).getD s.server
    let repstr : Value :=
      if isPort80 hp then server
      else .str (toText server ++ ':' :: toText hp)
    .ok (setKey ctx (s2l "http_server") repstr)

/-- Closing delimiter search for the lazy regex `@@[\S]*?@@`: given the
text after an opening `@@`, the shortest run of non-whitespace characters
followed by `@@`. -/
def findClose : List Char → Option (List Char × List Char)
  | [] => none
  | [_] => none
  | c1 :: c2 :: rest =>
    if c1 = '@' ∧ c2 = '@' then some ([], rest)
    else if isPyWS c1 then none
    else
      match findClose (c2 :: rest) with
      | some (mid, rem) => some (c1 :: mid, rem)
      | none => none

/-- Fueled scan of `re.finditer(r"@@[\S]*?@@", text)`: non-overlapping
matches, scanning resumes after each match.  Fuel is the text length. -/
def findTokensF : Nat → List Char → List (List Char)
  | 0, _ => []
  | _ + 1, [] => []
  | _ + 1, [_] => []
  | f + 1, c1 :: c2 :: rest =>
    if c1 = '@' ∧ c2 = '@' then
      match findClose rest with
      | some (mid, rem) => ('@' :: '@' :: (mid ++ ['@', '@'])) :: findTokensF f rem
      | none => findTokensF f (c2 :: rest)
    else findTokensF f (c2 :: rest)

/-- All matches of `@@[\S]*?@@` in the text, in scan order. -/
def findTokens (s : List Char) : List (List Char) :=
  findTokensF s.length s

/-- Deduplication of the match list.  Python collects matches into a
`set`, whose iteration order is unspecified; the model fixes
first-occurrence order. -/
def dedupeGo : List (List Char) → List (List Char) → List (List Char)
  | [], _ => []
  | x :: xs, seen => if x ∈ seen then dedupeGo xs seen else x :: dedupeGo xs (x :: seen)

/-- Deduplicated token list. -/
def dedupe (l : List (List Char)) : List (List Char) := dedupeGo l []

/-- The `@@...@@` substitution loop: an absent key raises `KeyError`; a
non-string value makes `str.replace` raise `TypeError`. -/
def substGo (ctx : Ctx) : List (List Char) → List Char → Except RErr (List Char)
  | [], acc => .ok acc
  | t :: ts, acc =>
    match ctxGet ctx (stripAts t) with
    | none => .error (.keyError (stripAts t))
    | some (.str v) => substGo ctx ts (replaceList t v acc)
    | some _ => .error .typeError

/-- Token substitution over the rendered text (`render` lines 146-150). -/
def substTokens (ctx : Ctx) (s : List Char) : Except RErr (List Char) :=
  substGo ctx (dedupe (findTokens s)) s

/-- The leading-newline trim (`render` lines 153-154): `lstrip()` with no
argument, guarded by `startswith("\n")`. -/
def trimLead (s : List Char) : List Char :=
  if (['\n'] : List Char).isPrefixOf s then s.dropWhile isPyWS else s

/-- The post-filtering applied to successful engine output (`render`
lines 137-154): `http_server` computation, token substitution, trim. -/
def postProcess (st : Option Settings) (ctx : Ctx) (dataOut : List Char) :
    Except RErr (List Char × Ctx) :=
  match httpStep st ctx with
  | .error e => .error e
  | .ok ctx2 =>
    match substTokens ctx2 dataOut with
    | .error e => .error e
    | .ok d2 => .ok (trimLead d2, ctx2)

/-- `Templar.render`.  The optional output path only triggers a terminal
file write of the returned text, an external effect not modelled; the
returned pair is the rendered text and the (mutated) context. -/
def renderT (o : Oracle) (st : Option Settings) (ctx : Ctx) (_outPath : Option (List Char))
    (raw ttype : List Char) : Except RErr (List Char × Ctx) :=
  if ttype = s2l "default" ∨ ttype = s2l "jinja2" ∨ ttype = s2l "cheetah" then
    match resolveType st raw ttype with
    | (t2, raw2) =>
      if t2 = s2l "cheetah" then
        match render_cheetah o st ctx raw2 with
        | .error e => .error e
        | .ok (d1, ctx1) => postProcess st ctx1 d1
      else if t2 = s2l "jinja2" then
        if o.jinjaAvailable then postProcess st ctx (render_jinja2 o ctx raw2)
        else .ok (s2l "# ERROR: JINJA2 NOT AVAILABLE. Maybe you need to install python-jinja2?\n", ctx)
      else .ok (s2l "# ERROR: UNSUPPORTED TEMPLATE TYPE (" ++ t2 ++ s2l ")", ctx)
  else .ok (s2l "# ERROR: Unsupported template type selected!", ctx)

/-! ### Generic helper lemmas -/

theorem ctxGet_setKey_self (ctx : Ctx) (k : List Char) (v : Value) :
    ctxGet (setKey ctx k v) k = some v := by
  induction ctx with
  | nil => simp [setKey, ctxGet]
  | cons p rest ih =>
    by_cases h : p.1 = k
    · simp [setKey, h, ctxGet]
    · simp [setKey, h, ctxGet, ih]

theorem ctxGet_setKey_ne (ctx : Ctx) (k k' : List Char) (v : Value) (h : k' ≠ k) :
    ctxGet (setKey ctx k v) k' = ctxGet ctx k' := by
  induction ctx with
  | nil =>
    simp only [setKey, ctxGet]
    rw [if_neg (fun hk => h hk.symm)]
  | cons p rest ih =>
    obtain ⟨k₁, v₁⟩ := p
    by_cases hp : k₁ = k
    · subst hp
      simp only [setKey, if_pos rfl, ctxGet]
      rw [if_neg (fun hk => h hk.symm), if_neg (fun hk => h hk.symm)]
    · simp only [setKey, if_neg hp, ctxGet]
      by_cases hk : k₁ = k'
      · rw [if_pos hk, if_pos hk]
      · rw [if_neg hk, if_neg hk, ih]

theorem splitCh_ne_nil (sep : Char) (l : List Char) : splitCh sep l ≠ [] := by
  cases l with
  | nil => simp [splitCh]
  | cons c rest =>
    simp only [splitCh]
    cases h : splitCh sep rest with
    | nil => simp
    | cons cur parts =>
      by_cases hc : c = sep <;> simp [hc]

theorem splitCh_no_sep (sep : Char) (l : List Char) (h : sep ∉ l) :
    splitCh sep l = [l] := by
  induction l with
  | nil => rfl
  | cons c rest ih =>
    have hc : c ≠ sep := fun hc => h (by simp [hc])
    have := ih (fun hm => h (by simp [hm]))
    simp [splitCh, this, hc]

theorem splitCh_append_sep (sep : Char) (a b : List Char) (h : sep ∉ a) :
    splitCh sep (a ++ sep :: b) = a :: splitCh sep b := by
  induction a with
  | nil =>
    simp only [List.nil_append, splitCh]
    cases hb : splitCh sep b with
    | nil => exact absurd hb (splitCh_ne_nil sep b)
    | cons cur parts => simp
  | cons c rest ih =>
    have hc : c ≠ sep := fun hc => h (by simp [hc])
    have hrec := ih (fun hm => h (by simp [hm]))
    simp only [List.cons_append, splitCh]
    cases hsp : splitCh sep (rest ++ sep :: b) with
    | nil => exact absurd hsp (splitCh_ne_nil _ _)
    | cons cur parts =>
      rw [hsp] at hrec
      injection hrec with h1 h2
      simp [hc, h1, h2]

theorem joinCh_splitCh (sep : Char) (l : List Char) :
    joinCh sep (splitCh sep l) = l := by
  induction l with
  | nil => rfl
  | cons c rest ih =>
    simp only [splitCh]
    cases h : splitCh sep rest with
    | nil => exact absurd h (splitCh_ne_nil sep rest)
    | cons cur parts =>
      rw [h] at ih
      by_cases hc : c = sep
      · subst hc
        cases parts <;> simp_all [joinCh]
      · cases parts <;> simp_all [joinCh]

theorem singleton_isPrefixOf (c : Char) (l : List Char) :
    ([c].isPrefixOf l) = true ↔ l.head? = some c := by
  cases l with
  | nil => simp [List.isPrefixOf]
  | cons x rest =>
    constructor
    · intro h
      rw [ List.isPrefixOf_iff_prefix] at h
      rcases h with ⟨t, ht⟩
      simp only [List.singleton_append] at ht
      injection ht with h1 h2
      subst h1
      rfl
    · intro h
      simp only [List.head?] at h
      injection h with h
      subst h
      rw [ List.isPrefixOf_iff_prefix]
      exact ⟨rest, rfl⟩

theorem head_dropWhile_false (p : Char → Bool) (l : List Char) (c : Char)
    (h : (l.dropWhile p).head? = some c) : p c = false := by
  induction l with
  | nil => simp [List.dropWhile] at h
  | cons x rest ih =>
    rw [List.dropWhile_cons] at h
    by_cases hp : p x
    · rw [if_pos hp] at h
      exact ih h
    · rw [if_neg hp] at h
      simp only [List.head?] at h
      injection h with h
      subst h
      simpa using hp

/-! ### Claim C3 — leading trim

The claim says the trim removes only the contiguous run of *newline*
characters at the very start and changes nothing else.  The code runs
Python `lstrip()` (all whitespace) whenever the text starts with a
newline, so `"\n foo"` becomes `"foo"` rather than `" foo"`: the claim is
corrected to whitespace stripping gated on a leading newline. -/

/-- C3 counterexample: on engine output `"\n foo"` the trim step removes
the space after the leading newline as well, so it does not remove only
the contiguous run of leading newlines. -/
theorem C3_trim_counterexample :
    trimLead (s2l "\n foo") = s2l "foo" ∧ trimLead (s2l "\n foo") ≠ s2l " foo" := by
  decide

/-- C3 (amended): if the rendered text starts with a newline, the trim
step removes exactly the maximal leading run of whitespace characters
(newlines, spaces, tabs, carriage returns, form/vertical feeds) and
nothing else; a text that does not start with a newline is unchanged. -/
theorem C3_trim_amended (l : List Char) :
    (l.head? = some '\n' →
      ∃ ws rest, l = ws ++ rest ∧ (∀ c ∈ ws, isPyWS c = true) ∧
        (∀ c, rest.head? = some c → isPyWS c = false) ∧ trimLead l = rest) ∧
    (l.head? ≠ some '\n' → trimLead l = l) := by
  constructor
  · intro h
    refine ⟨l.takeWhile isPyWS, l.dropWhile isPyWS,
      (List.takeWhile_append_dropWhile isPyWS l).symm,
      fun c hc => List.mem_takeWhile_imp hc,
      fun c hc => head_dropWhile_false isPyWS l c hc, ?_⟩
    rw [trimLead, if_pos ((singleton_isPrefixOf '\n' l).mpr h)]
  · intro h
    rw [trimLead, if_neg (fun hp => h ((singleton_isPrefixOf '\n' l).mp hp))]

/-- C3 witness: the spec's own example `"\n\nfoo\n\nbar"` starts with a
newline and trims to `"foo\n\nbar"`. -/
theorem C3_trim_amended_witness :
    (s2l "\n\nfoo\n\nbar").head? = some '\n' ∧
    (∃ ws rest, s2l "\n\nfoo\n\nbar" = ws ++ rest ∧ (∀ c ∈ ws, isPyWS c = true) ∧
      (∀ c, rest.head? = some c → isPyWS c = false) ∧
      trimLead (s2l "\n\nfoo\n\nbar") = rest) ∧
    trimLead (s2l "\n\nfoo\n\nbar") = s2l "foo\n\nbar" :=
  ⟨by decide, (C3_trim_amended (s2l "\n\nfoo\n\nbar")).1 (by decide), by decide⟩

/-! ### Shared concrete fixtures for witnesses -/

/-- An oracle whose engines always succeed with fixed output. -/
def oracleEx : Oracle :=
  ⟨fun _ _ => .ok (s2l "CHOUT"), fun _ _ => some (s2l "JOUT"), true⟩

/-- A concrete settings object: whitelist `["random"]`, no default type,
server identity `"h1"`. -/
def settingsEx : Settings := ⟨[s2l "random"], [], .str (s2l "h1")⟩

/-! ### Claim C8 — NFS network-path rewrite -/

/-- C8: with `tree = "nfs://myserver:/export/dir"`, the legacy-engine
preprocessing rewrites every line containing both `"--url"` and `"url "`
into `"nfs --server myserver --dir /export/dir"` followed by the comment
line `"#url --url=nfs://myserver:/export/dir"`, leaves other lines
unchanged, and re-joins each line with a trailing newline. -/
theorem C8_nfs_rewrite (ctx : Ctx) (raw : List Char)
    (h : ctxGet ctx (s2l "tree") = some (.str (s2l "nfs://myserver:/export/dir"))) :
    nfsRewrite ctx raw = .ok ((splitCh '\n' raw).foldr
      (fun l acc =>
        (if containsSub l (s2l "--url") ∧ containsSub l (s2l "url ") then
          s2l "nfs --server myserver --dir /export/dir\n#url --url=nfs://myserver:/export/dir"
        else l) ++ '\n' :: acc) []) := by
  simp only [nfsRewrite, h]
  rw [if_pos (by decide)]
  induction splitCh '\n' raw with
  | nil => rfl
  | cons l ls ih =>
    rw [nfsGo]
    by_cases hm : containsSub l (s2l "--url") = true ∧ containsSub l (s2l "url ") = true
    · rw [nfsLine, if_pos hm]
      rw [show splitMax ':' 2 ((s2l "nfs://myserver:/export/dir").drop 6)
            = [s2l "myserver", s2l "/export/dir"] from by decide]
      rw [ih]
      simp only [List.foldr_cons, if_pos hm]
      rw [show (s2l "nfs --server " ++ s2l "myserver" ++ s2l " --dir " ++ s2l "/export/dir"
            ++ ['\n'] ++ s2l "#url --url=" ++ s2l "nfs://myserver:/export/dir")
            = s2l "nfs --server myserver --dir /export/dir\n#url --url=nfs://myserver:/export/dir"
            from by decide]
    · rw [nfsLine, if_neg hm, ih]
      simp only [List.foldr_cons, if_neg hm]

/-- C8 witness: a two-line template where the first line carries both
markers is rewritten to the canonical directive plus comment line. -/
theorem C8_nfs_rewrite_witness :
    nfsRewrite [(s2l "tree", .str (s2l "nfs://myserver:/export/dir"))]
        (s2l "url --url=xyz\nplain") =
      .ok (s2l "nfs --server myserver --dir /export/dir\n#url --url=nfs://myserver:/export/dir\nplain\n") := by
  rw [C8_nfs_rewrite _ _ (by rfl)]
  rfl

/-! ### Claim C9 — malformed NFS path is fatal -/

theorem nfsGo_err (tree : List Char) (ls : List (List Char))
    (hbad : ∀ sv dv, splitMax ':' 2 (tree.drop 6) ≠ [sv, dv])
    (hline : ∃ l ∈ ls, containsSub l (s2l "--url") = true ∧ containsSub l (s2l "url ") = true) :
    nfsGo tree ls =
      .error (.cx (s2l "Invalid syntax for NFS path given during import: " ++ tree)) := by
  induction ls with
  | nil => simp at hline
  | cons l ls ih =>
    rw [nfsGo]
    by_cases hm : containsSub l (s2l "--url") = true ∧ containsSub l (s2l "url ") = true
    · rw [nfsLine, if_pos hm]
      cases hsp : splitMax ':' 2 (tree.drop 6) with
      | nil => rfl
      | cons a t1 =>
        cases t1 with
        | nil => rfl
        | cons b t2 =>
          cases t2 with
          | nil => exact absurd hsp (hbad a b)
          | cons c t3 => rfl
    · rw [nfsLine, if_neg hm]
      rcases hline with ⟨l', hl', hml'⟩
      rcases List.mem_cons.mp hl' with heq | htail
      · exact absurd (heq ▸ hml') hm
      · rw [ih ⟨l', htail, hml'⟩]

/-- C9: a legacy-engine render whose `tree` is an `nfs://` path with no
`host:directory` separator and whose (alias-substituted) template has a
line with both rewrite markers fails with the `CX` SyntaxError message,
for every oracle behaviour — i.e. before any compilation. -/
theorem C9_nfs_malformed (o : Oracle) (st : Option Settings) (ctx : Ctx) (raw rest : List Char)
    (hchk : check_for_invalid_imports st raw = .ok ())
    (htree : ctxGet ctx (s2l "tree") = some (.str (s2l "nfs://" ++ rest)))
    (hsep : breakCh ':' rest = none)
    (hline : ∃ l ∈ splitCh '\n' (replaceList (s2l "TEMPLATE::") (s2l "$") raw),
      containsSub l (s2l "--url") = true ∧ containsSub l (s2l "url ") = true) :
    render_cheetah o st ctx raw =
      .error (.cx (s2l "Invalid syntax for NFS path given during import: "
        ++ (s2l "nfs://" ++ rest))) := by
  have hdrop : (s2l "nfs://" ++ rest).drop 6 = rest := by
    have h6 : (s2l "nfs://").length = 6 := by decide
    rw [← h6, List.drop_left]
  have hbad : ∀ sv dv, splitMax ':' 2 ((s2l "nfs://" ++ rest).drop 6) ≠ [sv, dv] := by
    intro sv dv
    rw [hdrop, splitMax, hsep]
    intro hcontra
    simp at hcontra
  have hpre : ((s2l "nfs://").isPrefixOf (s2l "nfs://" ++ rest)) = true := by
    rw [ List.isPrefixOf_iff_prefix]
    exact List.prefix_append _ _
  simp only [render_cheetah]
  rw [hchk]
  simp only [nfsRewrite, htree]
  rw [if_pos hpre, nfsGo_err _ _ hbad hline]

/-- C9 witness: `tree = "nfs://nosep"` with a marker line aborts the
legacy render with the SyntaxError `CX` message. -/
theorem C9_nfs_malformed_witness :
    render_cheetah oracleEx (some settingsEx)
        [(s2l "tree", .str (s2l "nfs://nosep"))] (s2l "url --url=x\nplain") =
      .error (.cx (s2l "Invalid syntax for NFS path given during import: "
        ++ (s2l "nfs://" ++ s2l "nosep"))) :=
  C9_nfs_malformed oracleEx (some settingsEx) _ _ (s2l "nosep")
    (by rfl) (by rfl) (by rfl) (by decide)

/-! ### Claim C1 — import whitelist enforcement -/

theorem checkGo_err (s : Settings) (ls : List (List Char))
    (h : ∃ l ∈ ls, containsSub l (s2l "#import") = true ∧
          importTarget l ∉ s.cheetah_import_whitelist) :
    ∃ r, checkGo (some s) ls =
        .error (.cx (s2l "potentially insecure import in template: " ++ r)) ∧
      r ∉ s.cheetah_import_whitelist := by
  induction ls with
  | nil => simp at h
  | cons l ls ih =>
    rw [checkGo]
    by_cases hc : containsSub l (s2l "#import") = true
    · by_cases hw : importTarget l ∈ s.cheetah_import_whitelist
      · rw [checkLine, if_pos hc]
        simp only [if_pos hw]
        rcases h with ⟨l', hl', hcl', hwl'⟩
        rcases List.mem_cons.mp hl' with heq | htail
        · exact absurd (heq ▸ hw) hwl'
        · exact ih ⟨l', htail, hcl', hwl'⟩
      · refine ⟨importTarget l, ?_, hw⟩
        rw [checkLine, if_pos hc]
        simp only [if_neg hw]
    · rw [checkLine, if_neg hc]
      rcases h with ⟨l', hl', hcl', hwl'⟩
      rcases List.mem_cons.mp hl' with heq | htail
      · exact absurd (heq ▸ hcl') hc
      · exact ih ⟨l', htail, hcl', hwl'⟩

/-- C1: when a settings policy is configured and some template line
contains the `#import` marker with a target outside the whitelist, the
legacy render fails with the security `CX` exception — for every oracle
behaviour, i.e. before any template compilation or execution — and
produces no rendered output. -/
theorem C1_import_whitelist (o : Oracle) (s : Settings) (ctx : Ctx) (raw : List Char)
    (h : ∃ l ∈ splitCh '\n' raw, containsSub l (s2l "#import") = true ∧
          importTarget l ∉ s.cheetah_import_whitelist) :
    ∃ r, render_cheetah o (some s) ctx raw =
        .error (.cx (s2l "potentially insecure import in template: " ++ r)) ∧
      r ∉ s.cheetah_import_whitelist := by
  obtain ⟨r, hr, hnw⟩ := checkGo_err s _ h
  refine ⟨r, ?_, hnw⟩
  simp only [render_cheetah, check_for_invalid_imports]
  rw [hr]

/-- C1 witness: a template containing `#import os` against the whitelist
`["random"]` aborts with the security violation. -/
theorem C1_import_whitelist_witness :
    ∃ r, render_cheetah oracleEx (some settingsEx) [] (s2l "#import os\nbody") =
        .error (.cx (s2l "potentially insecure import in template: " ++ r)) ∧
      r ∉ settingsEx.cheetah_import_whitelist :=
  C1_import_whitelist oracleEx settingsEx [] (s2l "#import os\nbody") (by decide)

/-! ### Render-level inversion helpers -/

theorem render_cheetah_ok_ctx (o : Oracle) (st : Option Settings) (ctx : Ctx)
    (raw d1 : List Char) (ctx1 : Ctx)
    (h : render_cheetah o st ctx raw = .ok (d1, ctx1)) :
    ctx1 = setKey ctx (s2l "template_universe") (.dict ctx) := by
  simp only [render_cheetah] at h
  cases hc : check_for_invalid_imports st raw with
  | error e => simp only [hc] at h; exact Except.noConfusion h
  | ok u =>
    simp only [hc] at h
    cases hn : nfsRewrite ctx (replaceList (s2l "TEMPLATE::") (s2l "$") raw) with
    | error e => simp only [hn] at h; exact Except.noConfusion h
    | ok raw2 =>
      simp only [hn] at h
      cases he : o.cheetahExec (s2l "#errorCatcher ListErrors\n" ++ raw2)
          (setKey ctx (s2l "template_universe") (.dict ctx)) with
      | error e => simp only [he] at h; exact Except.noConfusion h
      | ok out =>
        simp only [he] at h
        injection h with h2
        injection h2 with h3 h4
        exact h4.symm

/-- Evaluating `postProcess` when everything succeeds: the returned
context is the input with `http_server` set from its own lookups. -/
theorem postProcess_ok_inv (s : Settings) (ctx ctx' : Ctx) (dataOut out : List Char)
    (h : postProcess (some s) ctx dataOut = .ok (out, ctx')) :
    ctx' = setKey ctx (s2l "http_server")
      (if isPort80 ((ctxGet ctx (s2l "http_port")).getD (.str (s2l "80"))) then
        (ctxGet ctx (s2l "server")).getD s.server
      else .str (toText ((ctxGet ctx (s2l "server")).getD s.server)
          ++ ':' :: toText ((ctxGet ctx (s2l "http_port")).getD (.str (s2l "80"))))) := by
  simp only [postProcess, httpStep] at h
  cases hs : substTokens (setKey ctx (s2l "http_server")
      (if isPort80 ((ctxGet ctx (s2l "http_port")).getD (.str (s2l "80"))) then
        (ctxGet ctx (s2l "server")).getD s.server
      else .str (toText ((ctxGet ctx (s2l "server")).getD s.server)
          ++ ':' :: toText ((ctxGet ctx (s2l "http_port")).getD (.str (s2l "80")))))) dataOut with
  | error e => rw [hs] at h; simp at h
  | ok d2 =>
    rw [hs] at h
    injection h with h2
    injection h2 with h3 h4
    exact h4.symm

/-! ### Claim C5 — `http_server` post-processing -/

/-- C5: after a successful engine render (valid selector, resolved engine
with Jinja2 available), the returned context maps `http_server` to the
value computed from the caller's context: server from key `server`
(falling back to the settings identity), port from key `http_port`
(falling back to `"80"`); `server:port` unless the port equals `80` as a
number or `"80"` as a string, else the server value alone. -/
theorem C5_http_server (o : Oracle) (s : Settings) (ctx ctx' : Ctx) (p : Option (List Char))
    (raw ttype t2 raw2 out : List Char)
    (hvalid : ttype = s2l "default" ∨ ttype = s2l "jinja2" ∨ ttype = s2l "cheetah")
    (hres : resolveType (some s) raw ttype = (t2, raw2))
    (heng : t2 = s2l "cheetah" ∨ t2 = s2l "jinja2")
    (hav : o.jinjaAvailable = true)
    (hok : renderT o (some s) ctx p raw ttype = .ok (out, ctx')) :
    ctxGet ctx' (s2l "http_server") = some
      (if isPort80 ((ctxGet ctx (s2l "http_port")).getD (.str (s2l "80"))) then
        (ctxGet ctx (s2l "server")).getD s.server
      else .str (toText ((ctxGet ctx (s2l "server")).getD s.server)
          ++ ':' :: toText ((ctxGet ctx (s2l "http_port")).getD (.str (s2l "80"))))) := by
  simp only [renderT] at hok
  rw [if_pos hvalid] at hok
  simp only [hres] at hok
  rcases heng with h2 | h2
  · subst h2
    rw [if_pos rfl] at hok
    cases hrc : render_cheetah o (some s) ctx raw2 with
    | error e => simp only [hrc] at hok; exact Except.noConfusion hok
    | ok pr =>
      obtain ⟨d1, ctx1⟩ := pr
      simp only [hrc] at hok
      have hctx1 := render_cheetah_ok_ctx o (some s) ctx raw2 d1 ctx1 hrc
      have hpp := postProcess_ok_inv s ctx1 ctx' d1 out hok
      subst hctx1
      rw [hpp, ctxGet_setKey_self,
        ctxGet_setKey_ne ctx _ (s2l "http_port") _ (by decide),
        ctxGet_setKey_ne ctx _ (s2l "server") _ (by decide)]
  · subst h2
    rw [if_neg (by decide), if_pos rfl, hav, if_pos rfl] at hok
    have hpp := postProcess_ok_inv s ctx ctx' _ out hok
    rw [hpp, ctxGet_setKey_self]

/-- C5 witness: `server="h1"`, `http_port=8080` gives
`http_server="h1:8080"` in the returned context. -/
theorem C5_http_server_witness :
    ctxGet [(s2l "server", .str (s2l "h1")), (s2l "http_port", .int 8080),
        (s2l "template_universe",
          .dict [(s2l "server", .str (s2l "h1")), (s2l "http_port", .int 8080)]),
        (s2l "http_server", .str (s2l "h1:8080"))] (s2l "http_server") =
      some (.str (s2l "h1:8080")) :=
  C5_http_server oracleEx settingsEx
    [(s2l "server", .str (s2l "h1")), (s2l "http_port", .int 8080)]
    [(s2l "server", .str (s2l "h1")), (s2l "http_port", .int 8080),
      (s2l "template_universe",
        .dict [(s2l "server", .str (s2l "h1")), (s2l "http_port", .int 8080)]),
      (s2l "http_server", .str (s2l "h1:8080"))]
    none (s2l "x") (s2l "cheetah") (s2l "cheetah") (s2l "x") (s2l "CHOUT")
    (by decide) (by rfl) (by decide) (by rfl) (by rfl)

/-! ### Claim C10 — `template_universe` snapshot -/

/-- C10: on a successful legacy-engine render, the returned context maps
`template_universe` to a copy of the caller's context taken before that
key was added — so the snapshot lacks `template_universe` and also lacks
the later-computed `http_server`, unless the caller supplied them. -/
theorem C10_universe (o : Oracle) (s : Settings) (ctx ctx' : Ctx) (p : Option (List Char))
    (raw ttype raw2 out : List Char)
    (hvalid : ttype = s2l "default" ∨ ttype = s2l "jinja2" ∨ ttype = s2l "cheetah")
    (hres : resolveType (some s) raw ttype = (s2l "cheetah", raw2))
    (hok : renderT o (some s) ctx p raw ttype = .ok (out, ctx')) :
    ctxGet ctx' (s2l "template_universe") = some (.dict ctx) ∧
    (∀ d, ctxGet ctx' (s2l "template_universe") = some (.dict d) →
      (ctxGet ctx (s2l "template_universe") = none →
        ctxGet d (s2l "template_universe") = none) ∧
      (ctxGet ctx (s2l "http_server") = none → ctxGet d (s2l "http_server") = none)) := by
  simp only [renderT] at hok
  rw [if_pos hvalid] at hok
  simp only [hres, if_true] at hok
  cases hrc : render_cheetah o (some s) ctx raw2 with
  | error e => simp only [hrc] at hok; exact Except.noConfusion hok
  | ok pr =>
    obtain ⟨d1, ctx1⟩ := pr
    simp only [hrc] at hok
    have hctx1 := render_cheetah_ok_ctx o (some s) ctx raw2 d1 ctx1 hrc
    have hpp := postProcess_ok_inv s ctx1 ctx' d1 out hok
    subst hctx1
    have h1 : ctxGet ctx' (s2l "template_universe") = some (.dict ctx) := by
      rw [hpp, ctxGet_setKey_ne _ _ _ _ (by decide), ctxGet_setKey_self]
    refine ⟨h1, fun d hd => ?_⟩
    rw [h1] at hd
    injection hd with hv
    injection hv with hctx
    subst hctx
    exact ⟨fun h => h, fun h => h⟩

/-- C10 witness: a caller context without those keys gets a snapshot that
also lacks them. -/
theorem C10_universe_witness :
    ctxGet [(s2l "a", .str (s2l "b")), (s2l "template_universe", .dict [(s2l "a", .str (s2l "b"))]),
        (s2l "http_server", .str (s2l "h1"))] (s2l "template_universe") =
      some (.dict [(s2l "a", .str (s2l "b"))]) ∧
    (∀ d, ctxGet [(s2l "a", .str (s2l "b")),
        (s2l "template_universe", .dict [(s2l "a", .str (s2l "b"))]),
        (s2l "http_server", .str (s2l "h1"))] (s2l "template_universe") = some (.dict d) →
      (ctxGet [(s2l "a", .str (s2l "b"))] (s2l "template_universe") = none →
        ctxGet d (s2l "template_universe") = none) ∧
      (ctxGet [(s2l "a", .str (s2l "b"))] (s2l "http_server") = none →
        ctxGet d (s2l "http_server") = none)) :=
  C10_universe oracleEx settingsEx [(s2l "a", .str (s2l "b"))]
    [(s2l "a", .str (s2l "b")), (s2l "template_universe", .dict [(s2l "a", .str (s2l "b"))]),
      (s2l "http_server", .str (s2l "h1"))]
    none (s2l "x") (s2l "cheetah") (s2l "x") (s2l "CHOUT")
    (by decide) (by rfl) (by rfl)

/-! ### Claim C6 — modern-engine graceful degradation -/

/-- C6: if the Jinja2 engine raises during construction or execution, the
render does not propagate an error: it returns the fixed diagnostic
placeholder as the rendered text. -/
theorem C6_jinja_degrade (o : Oracle) (s : Settings) (ctx : Ctx) (p : Option (List Char))
    (raw ttype raw2 : List Char)
    (hvalid : ttype = s2l "default" ∨ ttype = s2l "jinja2" ∨ ttype = s2l "cheetah")
    (hres : resolveType (some s) raw ttype = (s2l "jinja2", raw2))
    (hav : o.jinjaAvailable = true)
    (hexc : o.jinjaExec raw2 ctx = none) :
    ∃ ctx', renderT o (some s) ctx p raw ttype =
      .ok (s2l "# EXCEPTION OCCURRED DURING JINJA2 TEMPLATE PROCESSING\n", ctx') := by
  refine ⟨setKey ctx (s2l "http_server")
    (if isPort80 ((ctxGet ctx (s2l "http_port")).getD (.str (s2l "80"))) then
      (ctxGet ctx (s2l "server")).getD s.server
    else .str (toText ((ctxGet ctx (s2l "server")).getD s.server)
        ++ ':' :: toText ((ctxGet ctx (s2l "http_port")).getD (.str (s2l "80"))))), ?_⟩
  simp only [renderT]
  rw [if_pos hvalid]
  simp only [hres, if_true]
  rw [if_neg (by decide), hav, if_pos rfl]
  simp only [render_jinja2, hexc]
  exact rfl

/-- C6 witness: a concrete oracle whose Jinja2 engine always raises still
yields the placeholder text through the full `render`. -/
theorem C6_jinja_degrade_witness :
    ∃ ctx', renderT ⟨fun _ _ => .ok (s2l "CHOUT"), fun _ _ => none, true⟩
        (some settingsEx) [] none (s2l "x") (s2l "jinja2") =
      .ok (s2l "# EXCEPTION OCCURRED DURING JINJA2 TEMPLATE PROCESSING\n", ctx') :=
  C6_jinja_degrade ⟨fun _ _ => .ok (s2l "CHOUT"), fun _ _ => none, true⟩ settingsEx [] none
    (s2l "x") (s2l "jinja2") (s2l "x") (by decide) (by rfl) (by rfl) (by rfl)

/-! ### Claim C2 — `#template=` directive override

The claim says the first-line directive overrides the engine "for every
requested selector string".  In the code the unsupported-selector check
runs *before* the directive check, so an invalid selector short-circuits
and the directive is ignored; the override holds only for the three
recognised selectors. -/

/-- C2 counterexample: under the unsupported selector `"bogus"`, a
template whose first line is `#template=jinja2` is not dispatched to the
directive engine — the render returns the unsupported-type text — while
the same template under the supported selector `"default"` is rendered by
the Jinja2 engine with the directive line stripped. -/
theorem C2_directive_counterexample :
    renderT oracleEx (some settingsEx) [] none (s2l "#template=jinja2\nX") (s2l "bogus") =
      .ok (s2l "# ERROR: Unsupported template type selected!", []) ∧
    renderT oracleEx (some settingsEx) [] none (s2l "#template=jinja2\nX") (s2l "default") =
      .ok (s2l "JOUT", [(s2l "http_server", .str (s2l "h1"))]) := by
  constructor <;> rfl

/-- C2 (amended): for every requested selector among
`default`/`cheetah`/`jinja2`, a template whose first line is
`#template=<name>` (with `<name>` free of `'\n'` and `'='`, and whose
stripped lower-casing resolves to a supported engine) renders exactly as
the remaining source does under the directive's engine name: the line is
stripped from the source passed downstream and the name overrides the
requested selector. -/
theorem C2_directive_amended (o : Oracle) (st : Option Settings) (ctx : Ctx)
    (p : Option (List Char)) (name body sel en : List Char)
    (hsel : sel = s2l "default" ∨ sel = s2l "jinja2" ∨ sel = s2l "cheetah")
    (hnl : '\n' ∉ name) (heqc : '=' ∉ name)
    (hen : pyLower (pyStrip name) = en)
    (hname : en = s2l "cheetah" ∨ en = s2l "jinja2")
    (hbody : ∀ l0 rest, splitCh '\n' body = l0 :: rest →
      ((s2l "#template=").isPrefixOf l0) = false) :
    renderT o st ctx p ((s2l "#template=" ++ name) ++ '\n' :: body) sel =
      renderT o st ctx p body en := by
  have hvalid2 : en = s2l "default" ∨ en = s2l "jinja2" ∨ en = s2l "cheetah" := by
    rcases hname with h | h
    · exact Or.inr (Or.inr h)
    · exact Or.inr (Or.inl h)
  have hennotdef : ¬en = s2l "default" := by
    rcases hname with h | h <;> subst h <;> decide
  have hsplit : splitCh '\n' ((s2l "#template=" ++ name) ++ '\n' :: body)
      = (s2l "#template=" ++ name) :: splitCh '\n' body := by
    refine splitCh_append_sep '\n' _ body ?_
    intro hmem
    rcases List.mem_append.mp hmem with h | h
    · exact absurd h (by decide)
    · exact hnl h
  have hpre : ((s2l "#template=").isPrefixOf (s2l "#template=" ++ name)) = true := by
    rw [ List.isPrefixOf_iff_prefix]
    exact List.prefix_append _ _
  have hsplitEq : splitCh '=' (s2l "#template=" ++ name) = [s2l "#template", name] := by
    rw [show s2l "#template=" ++ name = s2l "#template" ++ '=' :: name from rfl,
      splitCh_append_sep '=' _ name (by decide), splitCh_no_sep '=' name heqc]
  have hres : resolveType st ((s2l "#template=" ++ name) ++ '\n' :: body) sel = (en, body) := by
    simp only [resolveType, hsplit]
    rw [if_pos hpre, hsplitEq]
    simp only [idx1]
    rw [joinCh_splitCh, hen]
  have hresR : resolveType st body en = (en, body) := by
    simp only [resolveType]
    rw [if_neg hennotdef]
    cases hsb : splitCh '\n' body with
    | nil => exact absurd hsb (splitCh_ne_nil _ _)
    | cons l0 rest =>
      simp [hbody l0 rest hsb]
  simp only [renderT]
  rw [if_pos hsel, if_pos hvalid2, hres, hresR]

/-- C2 witness: `#template=JinJa2 ` (mixed case, trailing blank) above
body `X` under selector `cheetah` renders exactly as `X` under selector
`jinja2`. -/
theorem C2_directive_amended_witness :
    renderT oracleEx (some settingsEx) [] none
        ((s2l "#template=" ++ s2l "JinJa2 ") ++ '\n' :: s2l "X") (s2l "cheetah") =
      renderT oracleEx (some settingsEx) [] none (s2l "X") (s2l "jinja2") :=
  C2_directive_amended oracleEx (some settingsEx) [] none (s2l "JinJa2 ") (s2l "X")
    (s2l "cheetah") (s2l "jinja2")
    (by decide) (by decide) (by decide) (by decide) (Or.inr rfl)
    (by
      intro l0 rest h
      rw [show splitCh '\n' (s2l "X") = [s2l "X"] from by decide] at h
      injection h with h1 h2
      subst h1
      decide)

/-! ### Token-scanner lemmas (for C4 and C7) -/

theorem findClose_len_le : ∀ (s m r : List Char), findClose s = some (m, r) →
    r.length ≤ s.length := by
  intro s
  induction s with
  | nil => intro m r h; exact Option.noConfusion h
  | cons c1 tail ih =>
    intro m r h
    cases tail with
    | nil => exact Option.noConfusion h
    | cons c2 rest =>
      simp only [findClose] at h
      by_cases h12 : c1 = '@' ∧ c2 = '@'
      · rw [if_pos h12] at h
        injection h with h2
        injection h2 with hm hr
        subst hr
        simp
        omega
      · rw [if_neg h12] at h
        by_cases hws : isPyWS c1 = true
        · rw [if_pos hws] at h
          exact Option.noConfusion h
        · rw [if_neg hws] at h
          cases hf : findClose (c2 :: rest) with
          | none => rw [hf] at h; exact Option.noConfusion h
          | some pr =>
            obtain ⟨mid, rem⟩ := pr
            rw [hf] at h
            injection h with h2
            injection h2 with hm hr
            subst hr
            have := ih mid rem hf
            simp at this ⊢
            omega

theorem findTokensF_stable : ∀ (n : Nat) (s : List Char), s.length ≤ n →
    ∀ f, s.length ≤ f → findTokensF f s = findTokens s := by
  intro n
  induction n with
  | zero =>
    intro s hs f hf
    have : s = [] := List.length_eq_zero.mp (Nat.le_zero.mp hs)
    subst this
    cases f <;> rfl
  | succ n ih =>
    intro s hs f hf
    cases s with
    | nil => cases f <;> rfl
    | cons c1 tail =>
      cases f with
      | zero => simp at hf
      | succ f' =>
        cases tail with
        | nil => rfl
        | cons c2 rest =>
          show findTokensF (f' + 1) (c1 :: c2 :: rest)
            = findTokensF (rest.length + 1 + 1) (c1 :: c2 :: rest)
          simp only [findTokensF]
          by_cases h12 : c1 = '@' ∧ c2 = '@'
          · rw [if_pos h12, if_pos h12]
            cases hf2 : findClose rest with
            | none =>
              dsimp only
              have hlen : (c2 :: rest).length ≤ n := by simp at hs ⊢; omega
              rw [ih (c2 :: rest) hlen f' (by simp at hf ⊢; omega),
                ih (c2 :: rest) hlen (rest.length + 1) (by simp)]
            | some pr =>
              obtain ⟨mid, rem⟩ := pr
              dsimp only
              have hrem := findClose_len_le rest mid rem hf2
              have hlen : rem.length ≤ n := by simp at hs; omega
              rw [ih rem hlen f' (by simp at hf; omega),
                ih rem hlen (rest.length + 1) (by omega)]
          · rw [if_neg h12, if_neg h12]
            have hlen : (c2 :: rest).length ≤ n := by simp at hs ⊢; omega
            rw [ih (c2 :: rest) hlen f' (by simp at hf ⊢; omega),
              ih (c2 :: rest) hlen (rest.length + 1) (by simp)]

theorem findClose_key : ∀ (key r : List Char),
    (∀ c ∈ key, isPyWS c = false ∧ c ≠ '@') →
    findClose (key ++ '@' :: '@' :: r) = some (key, r) := by
  intro key
  induction key with
  | nil =>
    intro r _
    simp [findClose]
  | cons k key' ih =>
    intro r hk
    have hkk := hk k (by simp)
    cases hctl : key' ++ '@' :: '@' :: r with
    | nil => simp at hctl
    | cons c2 rest2 =>
      have : (k :: key') ++ '@' :: '@' :: r = k :: c2 :: rest2 := by
        rw [List.cons_append, hctl]
      rw [this]
      simp only [findClose]
      rw [if_neg (fun h12 => hkk.2 h12.1), if_neg (by simp [hkk.1]), ← hctl,
        ih r (fun c hc => hk c (by simp [hc]))]

theorem findTokens_skip (A r : List Char) (hA : ∀ c ∈ A, c ≠ '@') :
    findTokens (A ++ r) = findTokens r := by
  induction A with
  | nil => rfl
  | cons a A' ih =>
    have ha := hA a (by simp)
    have ih' := ih (fun c hc => hA c (by simp [hc]))
    simp only [List.cons_append]
    cases hsh : A' ++ r with
    | nil =>
      obtain ⟨hA', hr⟩ := List.append_eq_nil.mp hsh
      subst hA'
      subst hr
      rfl
    | cons c2 rest2 =>
      have hstep : findTokens (a :: c2 :: rest2) = findTokens (c2 :: rest2) := by
        simp only [findTokens, List.length_cons, findTokensF]
        rw [if_neg (fun h => ha h.1)]
      rw [hstep, ← hsh, ih']

theorem findTokens_head (key r : List Char)
    (hkey : ∀ c ∈ key, isPyWS c = false ∧ c ≠ '@') :
    findTokens ('@' :: '@' :: (key ++ '@' :: '@' :: r))
      = ('@' :: '@' :: (key ++ ['@', '@'])) :: findTokens r := by
  have hclose := findClose_key key r hkey
  simp only [findTokens, List.length_cons, findTokensF]
  rw [if_pos (⟨trivial, trivial⟩ : True ∧ True), hclose]
  dsimp only
  congr 1
  exact findTokensF_stable r.length r le_rfl _ (by simp [List.length_append]; omega)

theorem findTokensF_no_ats : ∀ (f : Nat) (s : List Char),
    containsSub s (s2l "@@") = false → findTokensF f s = [] := by
  intro f
  induction f with
  | zero => intro s _; rfl
  | succ f ih =>
    intro s h
    cases s with
    | nil => rfl
    | cons c1 tail =>
      cases tail with
      | nil => rfl
      | cons c2 rest =>
        simp only [findTokensF]
        by_cases h12 : c1 = '@' ∧ c2 = '@'
        · exfalso
          obtain ⟨rfl, rfl⟩ := h12
          have hpre : (s2l "@@").isPrefixOf ('@' :: '@' :: rest) = true := by
            rw [ List.isPrefixOf_iff_prefix]
            exact ⟨rest, rfl⟩
          simp only [containsSub, hpre, Bool.true_or] at h
          exact Bool.noConfusion h
        · rw [if_neg h12]
          apply ih
          simp only [containsSub] at h
          exact (Bool.or_eq_false_iff.mp h).2

theorem substTokens_no_ats (ctx : Ctx) (s : List Char)
    (h : containsSub s (s2l "@@") = false) : substTokens ctx s = .ok s := by
  rw [substTokens, show findTokens s = [] from findTokensF_no_ats s.length s h]
  rfl

theorem replaceListF_stable (t v : List Char) : ∀ (n : Nat) (s : List Char), s.length ≤ n →
    ∀ f, s.length ≤ f → replaceListF t v f s = replaceList t v s := by
  intro n
  induction n with
  | zero =>
    intro s hs f _
    have : s = [] := List.length_eq_zero.mp (Nat.le_zero.mp hs)
    subst this
    cases f <;> rfl
  | succ n ih =>
    intro s hs f hf
    cases s with
    | nil => cases f <;> rfl
    | cons c rest =>
      cases f with
      | zero => simp at hf
      | succ f' =>
        show replaceListF t v (f' + 1) (c :: rest) = replaceListF t v (rest.length + 1) (c :: rest)
        simp only [replaceListF]
        by_cases hcond : t ≠ [] ∧ t.isPrefixOf (c :: rest) = true
        · rw [if_pos hcond, if_pos hcond]
          congr 1
          have htne : 1 ≤ t.length := by
            cases ht : t with
            | nil => exact absurd ht hcond.1
            | cons x xs => simp
          have hdlen : (List.drop t.length (c :: rest)).length ≤ n := by
            simp only [List.length_drop, List.length_cons] at hs ⊢
            omega
          rw [ih _ hdlen f' (by simp only [List.length_drop, List.length_cons] at hf ⊢; omega),
            ih _ hdlen rest.length (by simp only [List.length_drop, List.length_cons]; omega)]
        · rw [if_neg hcond, if_neg hcond]
          congr 1
          have hrlen : rest.length ≤ n := by simp at hs; omega
          rw [ih rest hrlen f' (by simp at hf; omega), ih rest hrlen rest.length le_rfl]

theorem replaceList_skip (t' v A r : List Char) (hA : ∀ c ∈ A, c ≠ '@') :
    replaceList ('@' :: t') v (A ++ r) = A ++ replaceList ('@' :: t') v r := by
  induction A with
  | nil => rfl
  | cons a A' ih =>
    have ha := hA a (by simp)
    have ih' := ih (fun c hc => hA c (by simp [hc]))
    simp only [List.cons_append]
    show replaceListF ('@' :: t') v ((a :: (A' ++ r)).length) (a :: (A' ++ r)) = _
    simp only [List.length_cons, replaceListF]
    have hnp : ¬(('@' :: t') ≠ [] ∧ ('@' :: t').isPrefixOf (a :: (A' ++ r)) = true) := by
      rintro ⟨-, h2⟩
      simp only [List.isPrefixOf, Bool.and_eq_true, beq_iff_eq] at h2
      exact ha h2.1.symm
    rw [if_neg hnp]
    show a :: replaceList ('@' :: t') v (A' ++ r) = a :: (A' ++ replaceList ('@' :: t') v r)
    rw [ih']

theorem replaceList_head (t' v r : List Char) :
    replaceList ('@' :: t') v (('@' :: t') ++ r) = v ++ replaceList ('@' :: t') v r := by
  show replaceListF ('@' :: t') v ((('@' :: t') ++ r).length) (('@' :: t') ++ r) = _
  simp only [List.cons_append, List.length_cons, replaceListF]
  have hcond : ('@' :: t') ≠ [] ∧ ('@' :: t').isPrefixOf ('@' :: t'.append r) = true := by
    refine ⟨by simp, ?_⟩
    rw [show ('@' :: t'.append r) = ('@' :: t') ++ r from rfl, List.isPrefixOf_iff_prefix]
    exact List.prefix_append _ _
  rw [if_pos hcond,
    show List.drop (t'.length + 1) ('@' :: t'.append r) = r from List.drop_left ('@' :: t') r]
  congr 1
  exact replaceListF_stable _ _ r.length r le_rfl _
    (show r.length ≤ (t'.append r).length by
      rw [show t'.append r = t' ++ r from rfl, List.length_append]
      omega)

theorem dropWhile_ats_id (l : List Char) (h : ∀ c ∈ l, c ≠ '@') :
    l.dropWhile (· = '@') = l := by
  cases l with
  | nil => rfl
  | cons c rest =>
    rw [List.dropWhile_cons, if_neg]
    intro hc
    exact h c (by simp) (by simpa using hc)

theorem stripAts_tok (key : List Char) (h : ∀ c ∈ key, c ≠ '@') :
    stripAts ('@' :: '@' :: (key ++ ['@', '@'])) = key := by
  have h1 : List.dropWhile (· = '@') ('@' :: '@' :: (key ++ ['@', '@']))
      = List.dropWhile (· = '@') (key ++ ['@', '@']) := by
    rw [List.dropWhile_cons, if_pos (by decide), List.dropWhile_cons, if_pos (by decide)]
  cases key with
  | nil =>
    simp only [stripAts]
    rw [h1]
    decide
  | cons k key' =>
    have h2 : List.dropWhile (· = '@') ((k :: key') ++ ['@', '@'])
        = (k :: key') ++ ['@', '@'] := by
      rw [List.cons_append, List.dropWhile_cons,
        if_neg (fun hc => h k (by simp) (by simpa using hc))]
    have h3 : ((k :: key') ++ ['@', '@']).reverse = '@' :: '@' :: (k :: key').reverse := by
      rw [List.reverse_append]
      rfl
    have h4 : List.dropWhile (· = '@') ('@' :: '@' :: (k :: key').reverse)
        = (k :: key').reverse := by
      rw [List.dropWhile_cons, if_pos (by decide), List.dropWhile_cons, if_pos (by decide),
        dropWhile_ats_id _ (fun c hc => h c (by rw [List.mem_reverse] at hc; exact hc))]
    simp only [stripAts]
    rw [h1, h2, h3, h4, List.reverse_reverse]

theorem dedupe_pair (t : List Char) : dedupe [t, t] = [t] := by
  simp [dedupe, dedupeGo]

/-! ### Claim C4 — token substitution

The claim says every delimited token whose key is present in the context
is replaced by the looked-up value's *textual form*.  The code passes the
raw value to `str.replace` without converting it, so a numeric value
raises `TypeError` instead of substituting its textual form; the claim is
corrected to string-valued lookups. -/

/-- C4 counterexample: with context `{"port": 8080}` the token
`@@port@@` has its key present, but the substitution step raises instead
of producing `"8080"`. -/
theorem C4_token_subst_counterexample :
    substTokens [(s2l "port", .int 8080)] (s2l "@@port@@") = .error .typeError ∧
    substTokens [(s2l "port", .int 8080)] (s2l "@@port@@") ≠ .ok (s2l "8080") := by
  refine ⟨rfl, fun h => ?_⟩
  rw [show substTokens [(s2l "port", .int 8080)] (s2l "@@port@@")
      = .error .typeError from rfl] at h
  exact Except.noConfusion h

/-- C4 (amended): every occurrence of a delimited token `@@key@@` (key
whitespace- and `@`-free) whose key maps to a *string* in the context is
replaced by that string — shown for a text with two occurrences of the
token between `@`-free segments — and a text containing no `@@` at all is
left unchanged by the substitution step. -/
theorem C4_token_subst (ctx : Ctx) (A B C key v s : List Char)
    (hA : ∀ c ∈ A, c ≠ '@') (hB : ∀ c ∈ B, c ≠ '@') (hC : ∀ c ∈ C, c ≠ '@')
    (hkey : ∀ c ∈ key, isPyWS c = false ∧ c ≠ '@')
    (hv : ctxGet ctx key = some (.str v)) :
    substTokens ctx (A ++ ('@' :: '@' :: (key ++ ['@', '@'])) ++ B
        ++ ('@' :: '@' :: (key ++ ['@', '@'])) ++ C)
      = .ok (A ++ v ++ B ++ v ++ C) ∧
    (containsSub s (s2l "@@") = false → substTokens ctx s = .ok s) := by
  refine ⟨?_, fun hns => substTokens_no_ats ctx s hns⟩
  have hkey' : ∀ c ∈ key, c ≠ '@' := fun c hc => (hkey c hc).2
  have hassoc : A ++ ('@' :: '@' :: (key ++ ['@', '@'])) ++ B
        ++ ('@' :: '@' :: (key ++ ['@', '@'])) ++ C
      = A ++ '@' :: '@' :: (key ++ '@' :: '@' :: (B
          ++ '@' :: '@' :: (key ++ '@' :: '@' :: C))) := by
    simp [List.append_assoc]
  rw [hassoc]
  have hC0 : findTokens C = [] := by
    have := findTokens_skip C [] hC
    simpa using this
  have httl : findTokens (A ++ '@' :: '@' :: (key ++ '@' :: '@' :: (B
        ++ '@' :: '@' :: (key ++ '@' :: '@' :: C))))
      = ['@' :: '@' :: (key ++ ['@', '@']), '@' :: '@' :: (key ++ ['@', '@'])] := by
    rw [findTokens_skip A _ hA, findTokens_head key _ hkey, findTokens_skip B _ hB,
      findTokens_head key C hkey, hC0]
  have hlast : replaceList ('@' :: '@' :: (key ++ ['@', '@'])) v C = C := by
    have h2 := replaceList_skip ('@' :: (key ++ ['@', '@'])) v C [] hC
    rw [List.append_nil] at h2
    rw [h2, show replaceList ('@' :: '@' :: (key ++ ['@', '@'])) v [] = [] from rfl,
      List.append_nil]
  have hrepl : replaceList ('@' :: '@' :: (key ++ ['@', '@'])) v
        (A ++ '@' :: '@' :: (key ++ '@' :: '@' :: (B
          ++ '@' :: '@' :: (key ++ '@' :: '@' :: C))))
      = A ++ (v ++ (B ++ (v ++ C))) := by
    rw [replaceList_skip _ v A _ hA,
      show ('@' :: '@' :: (key ++ '@' :: '@' :: (B
          ++ '@' :: '@' :: (key ++ '@' :: '@' :: C))))
        = ('@' :: '@' :: (key ++ ['@', '@'])) ++ (B
          ++ '@' :: '@' :: (key ++ '@' :: '@' :: C)) from by simp [List.append_assoc],
      replaceList_head,
      replaceList_skip _ v B _ hB,
      show ('@' :: '@' :: (key ++ '@' :: '@' :: C))
        = ('@' :: '@' :: (key ++ ['@', '@'])) ++ C from by simp [List.append_assoc],
      replaceList_head, hlast]
  simp only [substTokens]
  rw [httl, dedupe_pair]
  simp only [substGo]
  rw [stripAts_tok key hkey', hv]
  dsimp only
  rw [hrepl]
  simp [List.append_assoc]

/-- C4 witness: context `{"name": "alpha"}` replaces both occurrences of
`@@name@@`, and the token-free text `"plain"` is unchanged. -/
theorem C4_token_subst_witness :
    substTokens [(s2l "name", .str (s2l "alpha"))]
        (s2l "x " ++ ('@' :: '@' :: (s2l "name" ++ ['@', '@'])) ++ s2l " y "
          ++ ('@' :: '@' :: (s2l "name" ++ ['@', '@'])) ++ s2l " z")
      = .ok (s2l "x " ++ s2l "alpha" ++ s2l " y " ++ s2l "alpha" ++ s2l " z") ∧
    substTokens [(s2l "name", .str (s2l "alpha"))] (s2l "plain") = .ok (s2l "plain") := by
  have h := C4_token_subst [(s2l "name", .str (s2l "alpha"))]
    (s2l "x ") (s2l " y ") (s2l " z") (s2l "name") (s2l "alpha") (s2l "plain")
    (by decide) (by decide) (by decide) (by decide) (by rfl)
  exact ⟨h.1, h.2 (by decide)⟩

/-! ### Claim C7 — missing token key aborts the render -/

theorem substGo_missing (ctx : Ctx) (ts : List (List Char)) :
    ∀ (acc : List Char),
    (∃ t ∈ ts, ctxGet ctx (stripAts t) = none) →
    (∀ t ∈ ts, ∀ vv, ctxGet ctx (stripAts t) = some vv → ∃ sv, vv = .str sv) →
    ∃ k, substGo ctx ts acc = .error (.keyError k) ∧ ctxGet ctx k = none := by
  induction ts with
  | nil => intro acc hmiss _; simp at hmiss
  | cons t ts ih =>
    intro acc hmiss hstr
    simp only [substGo]
    cases hg : ctxGet ctx (stripAts t) with
    | none => exact ⟨stripAts t, rfl, hg⟩
    | some vv =>
      obtain ⟨sv, rfl⟩ := hstr t (by simp) vv hg
      dsimp only
      apply ih
      · rcases hmiss with ⟨t', ht', hn⟩
        rcases List.mem_cons.mp ht' with heq | htail
        · subst heq
          rw [hg] at hn
          exact Option.noConfusion hn
        · exact ⟨t', htail, hn⟩
      · exact fun t' ht' => hstr t' (List.mem_cons_of_mem t ht')

/-- C7: when the rendered engine output contains a token whose key is
absent from the (post-`http_server`) context — and the present keys map
to strings — the whole render aborts with an uncaught `KeyError`: no
rendered text is returned and no recovery happens. -/
theorem C7_missing_token (o : Oracle) (s : Settings) (ctx ctx2 : Ctx)
    (p : Option (List Char)) (raw ttype raw2 out : List Char)
    (hvalid : ttype = s2l "default" ∨ ttype = s2l "jinja2" ∨ ttype = s2l "cheetah")
    (hres : resolveType (some s) raw ttype = (s2l "jinja2", raw2))
    (hav : o.jinjaAvailable = true)
    (hout : o.jinjaExec raw2 ctx = some out)
    (hctx2 : httpStep (some s) ctx = .ok ctx2)
    (hmiss : ∃ t ∈ dedupe (findTokens out), ctxGet ctx2 (stripAts t) = none)
    (hstr : ∀ t ∈ dedupe (findTokens out), ∀ vv, ctxGet ctx2 (stripAts t) = some vv →
      ∃ sv, vv = .str sv) :
    ∃ k, renderT o (some s) ctx p raw ttype = .error (.keyError k) ∧
      ctxGet ctx2 k = none := by
  obtain ⟨k, hsg, hk⟩ := substGo_missing ctx2 (dedupe (findTokens out)) out hmiss hstr
  refine ⟨k, ?_, hk⟩
  simp only [renderT]
  rw [if_pos hvalid]
  simp only [hres, if_true]
  rw [if_neg (by decide), hav, if_pos rfl]
  simp only [render_jinja2, hout]
  simp only [postProcess]
  rw [hctx2]
  simp only [substTokens]
  rw [hsg]

/-- C7 witness: engine output `@@missing@@` with an empty caller context
aborts the render with a `KeyError` for a key absent from the
post-processed context. -/
theorem C7_missing_token_witness :
    ∃ k, renderT ⟨fun _ _ => .ok (s2l "CHOUT"), fun _ _ => some (s2l "@@missing@@"), true⟩
        (some settingsEx) [] none (s2l "x") (s2l "jinja2") = .error (.keyError k) ∧
      ctxGet [(s2l "http_server", .str (s2l "h1"))] k = none :=
  C7_missing_token ⟨fun _ _ => .ok (s2l "CHOUT"), fun _ _ => some (s2l "@@missing@@"), true⟩
    settingsEx [] [(s2l "http_server", .str (s2l "h1"))] none (s2l "x") (s2l "jinja2")
    (s2l "x") (s2l "@@missing@@")
    (by decide) (by rfl) (by rfl) (by rfl) (by rfl)
    (by
      refine ⟨s2l "@@missing@@", ?_, by rfl⟩
      rw [show dedupe (findTokens (s2l "@@missing@@")) = [s2l "@@missing@@"] from rfl]
      simp)
    (by
      intro t ht vv hvv
      rw [show dedupe (findTokens (s2l "@@missing@@")) = [s2l "@@missing@@"] from rfl] at ht
      have ht2 : t = s2l "@@missing@@" := by simpa using ht
      subst ht2
      rw [show ctxGet [(s2l "http_server", Value.str (s2l "h1"))]
          (stripAts (s2l "@@missing@@")) = none from rfl] at hvv
      exact Option.noConfusion hvv)

end Cobbler
